import Mathlib

/-! Shallow embedding of the NexusIPAM core: src/services/ipUtils.ts (ipToLong,
longToIp, getIPRange, isValidCIDR, generateMockSubnet), the IPGrid sort
comparator and SubnetManager role gating (src/components/IPGrid.tsx), the
subnet gateway derivation (IPGrid.tsx / App.tsx), and authLogin
(src/services/storage.ts). JavaScript 32-bit coercions are modelled explicitly
on `Int`/`Nat`; JavaScript strings are modelled as `String` with
character-level splitting; `parseInt` is modelled for the unsigned untrimmed
decimal inputs that occur in this code base; `Math.random` and `Date.now`
are explicit oracles. -/

namespace NexusIPAM

/-- JavaScript ToUint32 coercion (`x >>> 0`). -/
def toUint32 (x : Int) : Nat := (x % (4294967296 : Int)).toNat

/-- Reinterpret a 32-bit unsigned value as a signed 32-bit value. -/
def uint32ToInt32 (u : Nat) : Int :=
  if u < 2147483648 then (u : Int) else (u : Int) - 4294967296

/-- JavaScript ToInt32 coercion. -/
def toInt32 (x : Int) : Int := uint32ToInt32 (toUint32 x)

/-- JavaScript `x << y`: operands coerced to int32, shift count taken mod 32. -/
def jsShl (x : Int) (y : Nat) : Int := toInt32 (toInt32 x * ((2 ^ (y % 32) : Nat) : Int))

/-- JavaScript `x & y` on numbers (bitwise and of the 32-bit patterns,
result read as int32). -/
def jsAnd (x y : Int) : Int := uint32ToInt32 (Nat.land (toUint32 x) (toUint32 y))

/-- JavaScript `~x` (int32 bitwise not, `-toInt32(x) - 1`). -/
def jsNot (x : Int) : Int := -(toInt32 x) - 1

/-- JavaScript `x >>> y` (unsigned shift right; the result is a uint32). -/
def jsShrU (x : Int) (y : Nat) : Nat := toUint32 x >>> (y % 32)

/-- Decimal digit character for `n < 10`. -/
def digitChar (n : Nat) : Char := Char.ofNat (48 + n)

/-- Test for an ASCII decimal digit. -/
def isDigitCh (c : Char) : Bool := 48 ≤ c.toNat && c.toNat ≤ 57

/-- Decimal digits of a natural number (JavaScript number-to-string for the
non-negative integers appearing here), with explicit recursion fuel so the
definition reduces inside the kernel. -/
def natDigitsAux : Nat → Nat → List Char
  | 0, _ => []
  | fuel + 1, n =>
    if n < 10 then [digitChar n] else natDigitsAux fuel (n / 10) ++ [digitChar (n % 10)]

/-- Decimal digits of `n`. -/
def natDigits (n : Nat) : List Char := natDigitsAux (n + 1) n

/-- Decimal string of a natural number. -/
def natStr (n : Nat) : String := String.mk (natDigits n)

/-- Value of a list of decimal digit characters. -/
def digitsToNat (l : List Char) : Nat := l.foldl (fun a c => a * 10 + (c.toNat - 48)) 0

/-- Model of JavaScript `parseInt(s, 10)` restricted to the unsigned untrimmed
decimal forms occurring in this code base: value of the longest leading run of
decimal digits, `none` (NaN) when the string does not start with a digit
(in particular `parseInt(undefined)` for a missing mask part). -/
def parseIntM (s : List Char) : Option Nat :=
  let ds := s.takeWhile isDigitCh
  if ds.isEmpty then none else some (digitsToNat ds)

/-- JavaScript `String.prototype.split` with a single-character separator. -/
def splitChar (sep : Char) : List Char → List (List Char)
  | [] => [[]]
  | c :: rest =>
    if c = sep then [] :: splitChar sep rest
    else
      match splitChar sep rest with
      | [] => [[c]]
      | h :: t => (c :: h) :: t

/-- The shared `ip.split('.').reduce((acc, oct) => (acc << 8) + parseInt(oct), 0)`
expression (the IPGrid sort comparators and the body of ipToLong);
`none` models NaN. -/
def ipNumRaw (ip : String) : Option Int :=
  (splitChar '.' ip.data).foldl
    (fun acc oct =>
      match acc, parseIntM oct with
      | some a, some o => some (jsShl a 8 + (o : Int))
      | _, _ => none)
    (some 0)

/-- Function `ipToLong` from ipUtils: the shared reduce followed by `>>> 0`
(JavaScript `NaN >>> 0` is `0`). -/
def ipToLong (ip : String) : Nat :=
  match ipNumRaw ip with
  | some v => toUint32 v
  | none => 0

/-- Function `longToIp` from ipUtils:
`[(long >>> 24) & 0xff, (long >>> 16) & 0xff, (long >>> 8) & 0xff, long & 0xff].join('.')`. -/
def longToIp (long : Int) : String :=
  let o1 := Nat.land (jsShrU long 24) 255
  let o2 := Nat.land (jsShrU long 16) 255
  let o3 := Nat.land (jsShrU long 8) 255
  let o4 := Nat.land (toUint32 long) 255
  String.mk (natDigits o1 ++ '.' :: (natDigits o2 ++ '.' :: (natDigits o3 ++ '.' :: natDigits o4)))

/-- The `-1 << (32 - mask)` value computed in getIPRange. -/
def maskLongOf (mask : Nat) : Int := jsShl (-1) (32 - mask)

/-- The `ipLong & maskLong` network value computed in getIPRange. -/
def networkLongOf (ip : String) (mask : Nat) : Int :=
  jsAnd ((ipToLong ip : Nat) : Int) (maskLongOf mask)

/-- The `networkLong + ~maskLong` broadcast value computed in getIPRange. -/
def broadcastLongOf (ip : String) (mask : Nat) : Int :=
  networkLongOf ip mask + jsNot (maskLongOf mask)

/-- Function `getIPRange` from ipUtils: split the CIDR on `/`, parse the mask part
(NaN when absent or non-numeric), return `[]` unless `24 ≤ mask ≤ 32`,
otherwise emit `longToIp i` for every `networkLong < i < broadcastLong`
in ascending order. -/
def getIPRange (cidr : String) : List String :=
  let parts := splitChar '/' cidr.data
  let ip := String.mk (parts.headD [])
  match parts[1]?.bind parseIntM with
  | none => []
  | some mask =>
    if mask < 24 ∨ 32 < mask then []
    else
      let networkLong := networkLongOf ip mask
      let broadcastLong := broadcastLongOf ip mask
      (List.range (broadcastLong - networkLong - 1).toNat).map
        (fun i : Nat => longToIp (networkLong + 1 + (i : Int)))

/-- The base-address part of a CIDR string, `cidr.split('/')[0]`, as a string. -/
def ipPartOf (cidr : String) : String := String.mk ((splitChar '/' cidr.data).headD [])

/-- Octet token of the isValidCIDR regular expression: `[0-9]{1,3}`. -/
def octetTok (l : List Char) : Bool :=
  decide (1 ≤ l.length) && decide (l.length ≤ 3) && l.all isDigitCh

/-- Mask token of the isValidCIDR regular expression: `[0-9]|[1-2][0-9]|3[0-2]`. -/
def maskTok (l : List Char) : Bool :=
  match l with
  | [c] => isDigitCh c
  | [c1, c2] =>
    ((c1 = '1' || c1 = '2') && isDigitCh c2) || (c1 = '3' && (c2 = '0' || c2 = '1' || c2 = '2'))
  | _ => false

/-- Function `isValidCIDR` from ipUtils: the anchored regular expression
`([0-9]{1,3}\.){3}[0-9]{1,3}(\/([0-9]|[1-2][0-9]|3[0-2]))?` written out as
exactly four dot-separated octet tokens, the last optionally followed by a
slash and a mask token. -/
def isValidCIDR (cidr : String) : Bool :=
  match splitChar '.' cidr.data with
  | [o1, o2, o3, rest] =>
    octetTok o1 && octetTok o2 && octetTok o3 &&
      (match splitChar '/' rest with
       | [o4] => octetTok o4
       | [o4, m] => octetTok o4 && maskTok m
       | _ => false)
  | _ => false

/-- Enumeration `IPStatus` from types.ts. -/
inductive IPStatus where
  | AVAILABLE
  | RESERVED
  | ACTIVE
  | DHCP
  | OFFLINE
deriving DecidableEq, Repr

/-- Interface `IPRecord` from types.ts. -/
structure IPRecord where
  ip : String
  status : IPStatus
  hostname : Option String := none
  macAddress : Option String := none
  owner : Option String := none
  description : Option String := none
  lastUpdated : Nat
deriving DecidableEq, Repr

/-- The status chosen in generateMockSubnet from one `Math.random()` draw:
`rand > 0.8 → ACTIVE`, else `rand > 0.7 → RESERVED`, else
`rand > 0.65 → DHCP`, else `AVAILABLE`. -/
def statusOfRand (rand : ℚ) : IPStatus :=
  if 4 / 5 < rand then .ACTIVE
  else if 7 / 10 < rand then .RESERVED
  else if 13 / 20 < rand then .DHCP
  else .AVAILABLE

/-- Function `generateMockSubnet` from ipUtils. The per-index `Math.random()` draws and
`Date.now()` reads are oracles indexed by the forEach index; the built
`Record<string, IPRecord>` is modelled as the association list of its
insertions (keys here are pairwise distinct). The `name` argument is unused,
as in the source. -/
def generateMockSubnet (cidr : String) (_name : String) (rand : Nat → ℚ)
    (now : Nat → Nat) : List (String × IPRecord) :=
  (getIPRange cidr).enum.map (fun p =>
    let index := p.1
    let ip := p.2
    let status := statusOfRand (rand index)
    (ip,
      { ip := ip
        status := status
        hostname := if status = .ACTIVE then some ("host-" ++ natStr index ++ ".local") else none
        lastUpdated := now index }))

/-- The IPGrid display sort comparator `(a, b) => numA - numB`, where each
number is the shared reduce without any `>>> 0` normalisation;
`none` models NaN. -/
def gridCompare (a b : String) : Option Int :=
  match ipNumRaw a, ipNumRaw b with
  | some x, some y => some (x - y)
  | _, _ => none

/-- Function `canEditIP` from SubnetManager: admins always, other users only while the
record status is AVAILABLE. -/
def canEditIP (isAdmin : Bool) (r : IPRecord) : Bool :=
  isAdmin || r.status = IPStatus.AVAILABLE

/-- The record stored by `handleUpdateIP`: for a non-admin user an AVAILABLE
record is forced to RESERVED before saving, otherwise the record is stored
as given. -/
def handleUpdateIP (isAdmin : Bool) (updatedRecord : IPRecord) : IPRecord :=
  if !isAdmin && updatedRecord.status = IPStatus.AVAILABLE then
    { updatedRecord with status := IPStatus.RESERVED }
  else updatedRecord

/-- The gateway stored by both handleCreateSubnet (IPGrid.tsx) and
handleAddSubnetFromAI (App.tsx): `cidr.split('/')[0]`. -/
def subnetGatewayOf (cidr : String) : String :=
  String.mk ((splitChar '/' cidr.data).headD [])

/-- Type `UserRole` from types.ts. -/
inductive UserRole where
  | admin
  | user
deriving DecidableEq, Repr

/-- Interface `User` from types.ts. -/
structure User where
  username : String
  role : UserRole
deriving DecidableEq, Repr

/-- A row of the `profiles` table as read by authLogin (`profile?.username`,
`profile?.role`; absent or falsy fields fall back). -/
structure Profile where
  username : Option String := none
  role : Option UserRole := none
deriving DecidableEq, Repr

/-- Boolean list-prefix test. -/
def isPrefixB : List Char → List Char → Bool
  | [], _ => true
  | _ :: _, [] => false
  | a :: as, b :: bs => a = b && isPrefixB as bs

/-- Substring test modelling `String.prototype.includes`. -/
def containsSub (needle : List Char) : List Char → Bool
  | [] => needle.isEmpty
  | c :: rest => isPrefixB needle (c :: rest) || containsSub needle rest

/-- The `mockUser` built at the top of authLogin: role is admin exactly when
the email contains the substring "admin". -/
def mockUserFor (email : String) : User :=
  ⟨email, if containsSub "admin".data email.data then .admin else .user⟩

/-- One run of the external auth backend as observed by authLogin: the client
is not configured, or some awaited call throws, or the sign-in and automatic
sign-up calls return with the given error and user-presence flags and the
`profiles` query returns `profile`. -/
structure AuthEnv where
  configured : Bool
  throws : Bool
  signInError : Bool
  signInHasUser : Bool
  signUpError : Bool
  signUpHasUser : Bool
  profile : Option Profile
deriving DecidableEq, Repr

/-- JavaScript `a || b` for an optional string field (the empty string is
falsy). -/
def orElseStr (a : Option String) (b : String) : String :=
  match a with
  | some s => if s.data.isEmpty then b else s
  | none => b

/-- The user built from a `profiles` row in authLogin:
`profile?.username || email` and `profile?.role || mockUser.role`. -/
def profileUserFor (profile : Option Profile) (email : String) : User :=
  ⟨orElseStr (profile.bind Profile.username) email,
   (profile.bind Profile.role).getD (mockUserFor email).role⟩

/-- Function `authLogin` from storage.ts, branch for branch: local mock fallback when
unconfigured, on a thrown exception, or when both sign-in and auto-sign-up
fail; a profile-derived user when sign-in or sign-up yields a user; the final
`return { user: mockUser, error: null }` fallback otherwise. Every branch
returns a user and a null error. -/
def authLogin (env : AuthEnv) (email : String) : Option User × Option String :=
  let mockUser := mockUserFor email
  if !env.configured then (some mockUser, none)
  else if env.throws then (some mockUser, none)
  else if env.signInError then
    if env.signUpError then (some mockUser, none)
    else if env.signUpHasUser then (some (profileUserFor env.profile email), none)
    else if env.signInHasUser then (some (profileUserFor env.profile email), none)
    else (some mockUser, none)
  else if env.signInHasUser then (some (profileUserFor env.profile email), none)
  else (some mockUser, none)

/-- Canonical dotted-quad rendering of four octet values. -/
def addrStr (a b c d : Nat) : String :=
  String.mk (natDigits a ++ '.' :: (natDigits b ++ '.' :: (natDigits c ++ '.' :: natDigits d)))

/-- Canonical CIDR rendering `a.b.c.d/n`. -/
def cidrStr (a b c d n : Nat) : String :=
  String.mk ((addrStr a b c d).data ++ '/' :: natDigits n)

/-- The 32-bit value of a dotted quad, big-endian. -/
def ipVal (a b c d : Nat) : Nat := a * 16777216 + b * 65536 + c * 256 + d

/-- Octet token with the numeric range check the spec states (0–255). -/
def octet255 (l : List Char) : Bool := octetTok l && decide (digitsToNat l ≤ 255)

/-- Modelled from the spec: the validity predicate C6 claims for isValidCIDR —
four decimal octets each in 0–255, optionally followed by a slash and a
prefix length 0–32. Used only to contrast with the implemented check. -/
def specValidCidr (cidr : String) : Bool :=
  match splitChar '.' cidr.data with
  | [o1, o2, o3, rest] =>
    octet255 o1 && octet255 o2 && octet255 o3 &&
      (match splitChar '/' rest with
       | [o4] => octet255 o4
       | [o4, m] => octet255 o4 && (!m.isEmpty && m.all isDigitCh && decide (digitsToNat m ≤ 32))
       | _ => false)
  | _ => false

/-! ### Arithmetic facts about the 32-bit coercion model -/

theorem toUint32_lt (x : Int) : toUint32 x < 4294967296 := by
  simp only [toUint32]
  omega

theorem toUint32_natCast (u : Nat) (h : u < 4294967296) : toUint32 ((u : Nat) : Int) = u := by
  simp only [toUint32]
  omega

theorem toInt32_emod (x : Int) : toInt32 x % 4294967296 = x % 4294967296 := by
  simp only [toInt32, uint32ToInt32, toUint32]
  split <;> omega

theorem toInt32_of_range (x : Int) (h1 : -2147483648 ≤ x) (h2 : x < 2147483648) :
    toInt32 x = x := by
  simp only [toInt32, uint32ToInt32, toUint32]
  split <;> omega

theorem jsShl_emod (x : Int) (y : Nat) :
    jsShl x y % 4294967296 = (x * ((2 ^ (y % 32) : Nat) : Int)) % 4294967296 := by
  simp only [jsShl]
  rw [toInt32_emod, Int.mul_emod, toInt32_emod, ← Int.mul_emod]

theorem jsShl8_of_range (a : Int) (h1 : 0 ≤ a) (h2 : a < 8388608) : jsShl a 8 = a * 256 := by
  have h8 : ((2 ^ (8 % 32) : Nat) : Int) = 256 := by norm_num
  simp only [jsShl, h8]
  rw [toInt32_of_range a (by omega) (by omega), toInt32_of_range _ (by omega) (by omega)]

/-! ### Decimal digit strings -/

theorem digitChar_toNat (n : Nat) (h : n < 10) : (digitChar n).toNat = 48 + n := by
  interval_cases n <;> rfl

theorem isDigitCh_digitChar (n : Nat) (h : n < 10) : isDigitCh (digitChar n) = true := by
  interval_cases n <;> rfl

theorem digitsToNat_append_singleton (l : List Char) (c : Char) :
    digitsToNat (l ++ [c]) = digitsToNat l * 10 + (c.toNat - 48) := by
  simp [digitsToNat, List.foldl_append]

theorem natDigitsAux_spec : ∀ fuel n, n < fuel →
    natDigitsAux fuel n ≠ [] ∧ (natDigitsAux fuel n).all isDigitCh = true ∧
      digitsToNat (natDigitsAux fuel n) = n := by
  intro fuel
  induction fuel with
  | zero => intro n h; omega
  | succ f ih =>
    intro n h
    by_cases h10 : n < 10
    · simp only [natDigitsAux, if_pos h10]
      refine ⟨by simp, ?_, ?_⟩
      · simp [isDigitCh_digitChar n h10]
      · simp [digitsToNat, digitChar_toNat n h10]
    · have hd : n / 10 < f := by
        have := Nat.div_lt_self (by omega : 0 < n) (by omega : 1 < 10)
        omega
      obtain ⟨h1, h2, h3⟩ := ih (n / 10) hd
      simp only [natDigitsAux, if_neg h10]
      refine ⟨by simp, ?_, ?_⟩
      · rw [List.all_append, h2]
        simp [isDigitCh_digitChar _ (by omega : n % 10 < 10)]
      · rw [digitsToNat_append_singleton, h3, digitChar_toNat _ (by omega : n % 10 < 10)]
        omega

theorem natDigits_ne_nil (n : Nat) : natDigits n ≠ [] :=
  (natDigitsAux_spec (n + 1) n (by omega)).1

theorem natDigits_all_digits (n : Nat) : (natDigits n).all isDigitCh = true :=
  (natDigitsAux_spec (n + 1) n (by omega)).2.1

theorem digitsToNat_natDigits (n : Nat) : digitsToNat (natDigits n) = n :=
  (natDigitsAux_spec (n + 1) n (by omega)).2.2

theorem takeWhile_all {p : Char → Bool} : ∀ l : List Char, l.all p = true →
    l.takeWhile p = l := by
  intro l
  induction l with
  | nil => intro _; rfl
  | cons c rest ih =>
    intro h
    rw [List.all_cons, Bool.and_eq_true] at h
    simp [List.takeWhile_cons, h.1, ih h.2]

theorem parseIntM_natDigits (n : Nat) : parseIntM (natDigits n) = some n := by
  simp only [parseIntM, takeWhile_all _ (natDigits_all_digits n)]
  rw [if_neg (by simpa [List.isEmpty_iff] using natDigits_ne_nil n)]
  rw [digitsToNat_natDigits]

theorem not_mem_of_all_digits {c : Char} {l : List Char} (hall : l.all isDigitCh = true)
    (hc : isDigitCh c = false) : c ∉ l := by
  intro hmem
  have := List.all_eq_true.mp hall c hmem
  rw [hc] at this
  exact Bool.noConfusion this

theorem dot_not_mem_natDigits (n : Nat) : '.' ∉ natDigits n :=
  not_mem_of_all_digits (natDigits_all_digits n) (by decide)

theorem slash_not_mem_natDigits (n : Nat) : '/' ∉ natDigits n :=
  not_mem_of_all_digits (natDigits_all_digits n) (by decide)

/-! ### Splitting -/

theorem splitChar_of_not_mem {sep : Char} : ∀ {l : List Char}, sep ∉ l →
    splitChar sep l = [l] := by
  intro l
  induction l with
  | nil => intro _; rfl
  | cons c rest ih =>
    intro h
    have h1 : ¬ c = sep := fun e => h (e ▸ List.mem_cons_self c rest)
    have h2 : sep ∉ rest := fun m => h (List.mem_cons_of_mem _ m)
    simp only [splitChar, if_neg h1, ih h2]

theorem splitChar_append {sep : Char} : ∀ {l1 : List Char} (l2 : List Char), sep ∉ l1 →
    splitChar sep (l1 ++ sep :: l2) = l1 :: splitChar sep l2 := by
  intro l1
  induction l1 with
  | nil => intro l2 _; simp [splitChar]
  | cons c cs ih =>
    intro l2 h
    have h1 : ¬ c = sep := fun e => h (e ▸ List.mem_cons_self c cs)
    have h2 : sep ∉ cs := fun m => h (List.mem_cons_of_mem _ m)
    have hih := ih l2 h2
    simp only [List.cons_append, splitChar, if_neg h1, List.append_eq]
    rw [hih]

theorem splitChar_addrStr (a b c d : Nat) :
    splitChar '.' (addrStr a b c d).data =
      [natDigits a, natDigits b, natDigits c, natDigits d] := by
  have key : splitChar '.' (natDigits a ++ '.' :: (natDigits b ++ '.' :: (natDigits c ++ '.' ::
      natDigits d))) = [natDigits a, natDigits b, natDigits c, natDigits d] := by
    rw [splitChar_append _ (dot_not_mem_natDigits a), splitChar_append _ (dot_not_mem_natDigits b),
      splitChar_append _ (dot_not_mem_natDigits c), splitChar_of_not_mem (dot_not_mem_natDigits d)]
  exact key

/-! ### The shared reduce on canonical dotted quads -/

theorem ipNumRaw_addrStr (a b c d : Nat) (ha : a < 256) (hb : b < 256) (hc : c < 256)
    (hd : d < 256) :
    ipNumRaw (addrStr a b c d) =
      some (if a < 128 then (ipVal a b c d : Int) else (ipVal a b c d : Int) - 4294967296) := by
  have e1 : jsShl 0 8 + (a : Int) = (a : Int) := by
    rw [(by decide : jsShl 0 8 = 0), Int.zero_add]
  have e2 : jsShl (a : Int) 8 + (b : Int) = ((a * 256 + b : Nat) : Int) := by
    rw [jsShl8_of_range _ (by omega) (by omega)]
    push_cast
    ring
  have e3 : jsShl ((a * 256 + b : Nat) : Int) 8 + (c : Int) =
      ((a * 65536 + b * 256 + c : Nat) : Int) := by
    rw [jsShl8_of_range _ (by omega) (by omega)]
    push_cast
    ring
  have e4 : jsShl ((a * 65536 + b * 256 + c : Nat) : Int) 8 + (d : Int) =
      if a < 128 then (ipVal a b c d : Int) else (ipVal a b c d : Int) - 4294967296 := by
    have h8 : ((2 ^ (8 % 32) : Nat) : Int) = 256 := by norm_num
    simp only [jsShl, h8]
    rw [toInt32_of_range ((a * 65536 + b * 256 + c : Nat) : Int) (by omega) (by omega)]
    simp only [toInt32, uint32ToInt32, toUint32, ipVal]
    split_ifs <;> push_cast <;> omega
  simp only [ipNumRaw, splitChar_addrStr, List.foldl_cons, List.foldl_nil, parseIntM_natDigits]
  rw [e1, e2, e3, e4]

theorem ipToLong_addrStr (a b c d : Nat) (ha : a < 256) (hb : b < 256) (hc : c < 256)
    (hd : d < 256) : ipToLong (addrStr a b c d) = ipVal a b c d := by
  simp only [ipToLong, ipNumRaw_addrStr a b c d ha hb hc hd]
  split_ifs with h <;> simp only [toUint32, ipVal] <;> push_cast <;> omega

theorem ipToLong_lt (ip : String) : ipToLong ip < 4294967296 := by
  unfold ipToLong
  cases h : ipNumRaw ip with
  | none => decide
  | some v => exact toUint32_lt v

/-! ### longToIp and the round trip -/

theorem land_255 (x : Nat) : Nat.land x 255 = x % 256 := by
  apply Nat.eq_of_testBit_eq
  intro i
  have h1 : Nat.land x 255 = x &&& (2 ^ 8 - 1) := rfl
  have h2 : x % 256 = x % 2 ^ 8 := rfl
  rw [h1, h2, Nat.testBit_and, Nat.testBit_mod_two_pow, Nat.testBit_two_pow_sub_one,
    Bool.and_comm]

theorem longToIp_eq_addrStr (x : Int) :
    longToIp x = addrStr (toUint32 x / 16777216 % 256) (toUint32 x / 65536 % 256)
      (toUint32 x / 256 % 256) (toUint32 x % 256) := by
  simp only [longToIp, jsShrU, land_255, Nat.shiftRight_eq_div_pow, addrStr]

theorem longToIp_congr {x y : Int} (h : toUint32 x = toUint32 y) : longToIp x = longToIp y := by
  rw [longToIp_eq_addrStr, longToIp_eq_addrStr, h]

theorem ipToLong_longToIp (x : Int) : ipToLong (longToIp x) = toUint32 x := by
  rw [longToIp_eq_addrStr]
  rw [ipToLong_addrStr _ _ _ _ (by omega) (by omega) (by omega) (by omega)]
  have := toUint32_lt x
  simp only [ipVal]
  omega

theorem toUint32_congr {x y : Int} (h : x % 4294967296 = y % 4294967296) :
    toUint32 x = toUint32 y := by
  simp only [toUint32, h]

theorem uint32ToInt32_emod (u : Nat) :
    uint32ToInt32 u % 4294967296 = (u : Int) % 4294967296 := by
  simp only [uint32ToInt32]
  split <;> omega

/-! ### The getIPRange representation -/

theorem maskLongOf_eq (n : Nat) (h24 : 24 ≤ n) (h32 : n ≤ 32) :
    maskLongOf n = -(((2 ^ (32 - n) : Nat) : Int)) := by
  interval_cases n <;> decide

theorem jsNot_maskLongOf (n : Nat) (h24 : 24 ≤ n) (h32 : n ≤ 32) :
    jsNot (maskLongOf n) = ((2 ^ (32 - n) : Nat) : Int) - 1 := by
  interval_cases n <;> decide

theorem two_pow_sub_le (n : Nat) (h24 : 24 ≤ n) : (2 : Nat) ^ (32 - n) ≤ 256 := by
  calc (2 : Nat) ^ (32 - n) ≤ 2 ^ 8 := Nat.pow_le_pow_right (by norm_num) (by omega)
  _ = 256 := by norm_num

theorem networkLongOf_eq (ip : String) (n : Nat) (h24 : 24 ≤ n) (h32 : n ≤ 32) :
    networkLongOf ip n =
      uint32ToInt32 (Nat.land (ipToLong ip) (4294967296 - 2 ^ (32 - n))) := by
  have hneg : toUint32 (-(((2 ^ (32 - n) : Nat) : Int))) = 4294967296 - 2 ^ (32 - n) := by
    have hle := two_pow_sub_le n h24
    have hpos : 0 < (2 : Nat) ^ (32 - n) := Nat.two_pow_pos _
    generalize (2 : Nat) ^ (32 - n) = p at hle hpos ⊢
    simp only [toUint32]
    omega
  simp only [networkLongOf, jsAnd, maskLongOf_eq n h24 h32,
    toUint32_natCast _ (ipToLong_lt ip), hneg]

theorem broadcastLongOf_eq (ip : String) (n : Nat) (h24 : 24 ≤ n) (h32 : n ≤ 32) :
    broadcastLongOf ip n = networkLongOf ip n + (((2 ^ (32 - n) : Nat) : Int) - 1) := by
  rw [broadcastLongOf, jsNot_maskLongOf n h24 h32]

theorem getIPRange_eq (cidr : String) (n : Nat)
    (hp : ((splitChar '/' cidr.data)[1]?).bind parseIntM = some n)
    (h24 : 24 ≤ n) (h32 : n ≤ 32) :
    getIPRange cidr =
      (List.range (2 ^ (32 - n) - 2)).map (fun i : Nat =>
        longToIp (((Nat.land (ipToLong (ipPartOf cidr))
          (4294967296 - 2 ^ (32 - n)) : Nat) : Int) + 1 + (i : Int))) := by
  have hif : ¬ (n < 24 ∨ 32 < n) := by omega
  simp only [getIPRange, hp, if_neg hif]
  have hcount : (broadcastLongOf (ipPartOf cidr) n - networkLongOf (ipPartOf cidr) n - 1).toNat =
      2 ^ (32 - n) - 2 := by
    rw [broadcastLongOf_eq _ n h24 h32]
    generalize networkLongOf (ipPartOf cidr) n = w
    generalize (2 : Nat) ^ (32 - n) = p
    omega
  rw [show String.mk ((splitChar '/' cidr.data).headD []) = ipPartOf cidr from rfl, hcount]
  apply List.map_congr_left
  intro i _
  apply longToIp_congr
  apply toUint32_congr
  have h := uint32ToInt32_emod (Nat.land (ipToLong (ipPartOf cidr)) (4294967296 - 2 ^ (32 - n)))
  rw [networkLongOf_eq _ n h24 h32]
  omega

theorem getIPRange_length (cidr : String) (n : Nat)
    (hp : ((splitChar '/' cidr.data)[1]?).bind parseIntM = some n)
    (h24 : 24 ≤ n) (h32 : n ≤ 32) :
    (getIPRange cidr).length = 2 ^ (32 - n) - 2 := by
  rw [getIPRange_eq cidr n hp h24 h32]
  simp

theorem netU_le (cidr : String) (n : Nat) :
    Nat.land (ipToLong (ipPartOf cidr)) (4294967296 - 2 ^ (32 - n)) ≤
      4294967296 - 2 ^ (32 - n) :=
  Nat.and_le_right

theorem toUint32_add_small (net i : Nat) (h : net + 1 + i < 4294967296) :
    toUint32 ((net : Int) + 1 + (i : Int)) = net + 1 + i := by
  simp only [toUint32]
  omega

theorem getIPRange_elem (cidr : String) (n : Nat)
    (hp : ((splitChar '/' cidr.data)[1]?).bind parseIntM = some n)
    (h24 : 24 ≤ n) (h32 : n ≤ 32) (i : Nat) (h : i < (getIPRange cidr).length) :
    ipToLong ((getIPRange cidr).get ⟨i, h⟩) =
      Nat.land (ipToLong (ipPartOf cidr)) (4294967296 - 2 ^ (32 - n)) + 1 + i := by
  have hlen := getIPRange_length cidr n hp h24 h32
  have hi : i < 2 ^ (32 - n) - 2 := by omega
  have hnet := netU_le cidr n
  have hpow := Nat.two_pow_pos (32 - n)
  have hle := two_pow_sub_le n h24
  have hrep := getIPRange_eq cidr n hp h24 h32
  have hel : (getIPRange cidr).get ⟨i, h⟩ =
      longToIp (((Nat.land (ipToLong (ipPartOf cidr)) (4294967296 - 2 ^ (32 - n)) : Nat) : Int)
        + 1 + (i : Int)) := by
    rw [List.get_eq_getElem, List.getElem_of_eq hrep h]
    simp
  rw [hel, ipToLong_longToIp, toUint32_add_small]
  generalize Nat.land (ipToLong (ipPartOf cidr)) (4294967296 - 2 ^ (32 - n)) = net at hnet ⊢
  omega

theorem getIPRange_pairwise (cidr : String) :
    List.Pairwise (fun s t => ipToLong s < ipToLong t) (getIPRange cidr) := by
  cases hp : ((splitChar '/' cidr.data)[1]?).bind parseIntM with
  | none =>
    have he : getIPRange cidr = [] := by simp only [getIPRange, hp]
    rw [he]
    exact List.Pairwise.nil
  | some n =>
    by_cases h2432 : 24 ≤ n ∧ n ≤ 32
    · rw [getIPRange_eq cidr n hp h2432.1 h2432.2, List.pairwise_map]
      apply List.Pairwise.imp_of_mem ?_ (List.pairwise_lt_range _)
      intro a b ha hb hlt
      have hnet := netU_le cidr n
      have ha2 : a < 2 ^ (32 - n) - 2 := List.mem_range.mp ha
      have hb2 : b < 2 ^ (32 - n) - 2 := List.mem_range.mp hb
      have hpow := Nat.two_pow_pos (32 - n)
      have hle := two_pow_sub_le n h2432.1
      generalize Nat.land (ipToLong (ipPartOf cidr)) (4294967296 - 2 ^ (32 - n)) = net
        at hnet ⊢
      rw [ipToLong_longToIp, ipToLong_longToIp, toUint32_add_small, toUint32_add_small] <;>
        omega
    · have he : getIPRange cidr = [] := by
        simp only [getIPRange, hp]
        rw [if_pos (by omega : n < 24 ∨ 32 < n)]
      rw [he]
      exact List.Pairwise.nil

theorem getIPRange_mem (cidr : String) (n : Nat)
    (hp : ((splitChar '/' cidr.data)[1]?).bind parseIntM = some n)
    (h24 : 24 ≤ n) (h32 : n ≤ 32) (s : String) (hs : s ∈ getIPRange cidr) :
    Nat.land (ipToLong (ipPartOf cidr)) (4294967296 - 2 ^ (32 - n)) < ipToLong s ∧
      ipToLong s <
        Nat.land (ipToLong (ipPartOf cidr)) (4294967296 - 2 ^ (32 - n)) + 2 ^ (32 - n) - 1 := by
  rw [getIPRange_eq cidr n hp h24 h32] at hs
  obtain ⟨i, hi, hfi⟩ := List.mem_map.mp hs
  have hi2 : i < 2 ^ (32 - n) - 2 := List.mem_range.mp hi
  have hnet := netU_le cidr n
  have hpow := Nat.two_pow_pos (32 - n)
  have hle := two_pow_sub_le n h24
  generalize Nat.land (ipToLong (ipPartOf cidr)) (4294967296 - 2 ^ (32 - n)) = net
    at hnet hfi ⊢
  rw [← hfi, ipToLong_longToIp, toUint32_add_small] <;> omega

/-! ### Parsing canonical CIDR strings -/

theorem slash_not_mem_addrStr (a b c d : Nat) : '/' ∉ (addrStr a b c d).data := by
  have key : '/' ∉ natDigits a ++ '.' :: (natDigits b ++ '.' :: (natDigits c ++ '.' ::
      natDigits d)) := by
    simp [List.mem_append, List.mem_cons, slash_not_mem_natDigits a, slash_not_mem_natDigits b,
      slash_not_mem_natDigits c, slash_not_mem_natDigits d]
  exact key

theorem splitChar_cidrStr (a b c d n : Nat) :
    splitChar '/' (cidrStr a b c d n).data = [(addrStr a b c d).data, natDigits n] := by
  have key : splitChar '/' ((addrStr a b c d).data ++ '/' :: natDigits n) =
      [(addrStr a b c d).data, natDigits n] := by
    rw [splitChar_append _ (slash_not_mem_addrStr a b c d),
      splitChar_of_not_mem (slash_not_mem_natDigits n)]
  exact key

theorem cidr_parse (a b c d n : Nat) :
    ((splitChar '/' (cidrStr a b c d n).data)[1]?).bind parseIntM = some n := by
  rw [splitChar_cidrStr]
  simp [parseIntM_natDigits]

theorem ipPartOf_cidrStr (a b c d n : Nat) :
    ipPartOf (cidrStr a b c d n) = addrStr a b c d := by
  rw [ipPartOf, splitChar_cidrStr]
  rfl

theorem addr_no_slash_parse (a b c d : Nat) :
    splitChar '/' (addrStr a b c d).data = [(addrStr a b c d).data] :=
  splitChar_of_not_mem (slash_not_mem_addrStr a b c d)

/-! ### Network address equals the base when the host bits are zero -/

theorem testBit_eq_false_of_mod (x k i : Nat) (hd : x % 2 ^ k = 0) (hi : i < k) :
    x.testBit i = false := by
  rw [Nat.testBit_to_div_mod]
  have hdvd : (2 : Nat) ^ (i + 1) ∣ x :=
    dvd_trans (pow_dvd_pow 2 (by omega)) (Nat.dvd_of_mod_eq_zero hd)
  obtain ⟨q, hq⟩ := hdvd
  subst hq
  rw [pow_succ, (by ring : (2 : Nat) ^ i * 2 * q = 2 ^ i * (2 * q)),
    Nat.mul_div_cancel_left _ (Nat.two_pow_pos i)]
  simp [Nat.mul_mod_right]

theorem land_eq_self_of_mod (x k : Nat) (hx : x < 4294967296) (hk : k ≤ 32)
    (hd : x % 2 ^ k = 0) : Nat.land x (4294967296 - 2 ^ k) = x := by
  have hM : (4294967296 : Nat) - 2 ^ k = (2 ^ (32 - k) - 1) <<< k := by
    rw [Nat.shiftLeft_eq, Nat.sub_mul, one_mul, ← pow_add, (by omega : 32 - k + k = 32)]
    norm_num
  apply Nat.eq_of_testBit_eq
  intro i
  rw [hM]
  show (x &&& ((2 ^ (32 - k) - 1) <<< k)).testBit i = x.testBit i
  rw [Nat.testBit_and, Nat.testBit_shiftLeft, Nat.testBit_two_pow_sub_one]
  by_cases hxi : x.testBit i = true
  · have hik : k ≤ i := by
      by_contra hik
      rw [testBit_eq_false_of_mod x k i hd (by omega)] at hxi
      exact Bool.noConfusion hxi
    have hi32 : i < 32 := by
      by_contra hi32
      have h2i : (4294967296 : Nat) ≤ 2 ^ i := by
        calc (4294967296 : Nat) = 2 ^ 32 := by norm_num
        _ ≤ 2 ^ i := Nat.pow_le_pow_right (by norm_num) (by omega)
      rw [Nat.testBit_lt_two_pow (lt_of_lt_of_le hx h2i)] at hxi
      exact Bool.noConfusion hxi
    simp [hxi, ge_iff_le, hik, (by omega : i - k < 32 - k)]
  · simp [Bool.eq_false_iff.mpr hxi]

/-! ### The seeded status distribution -/

theorem statusOfRand_spec (r : ℚ) :
    (statusOfRand r = .ACTIVE ↔ 4 / 5 < r) ∧
      (statusOfRand r = .RESERVED ↔ 7 / 10 < r ∧ r ≤ 4 / 5) ∧
      (statusOfRand r = .DHCP ↔ 13 / 20 < r ∧ r ≤ 7 / 10) ∧
      (statusOfRand r = .AVAILABLE ↔ r ≤ 13 / 20) := by
  unfold statusOfRand
  split_ifs with h1 h2 h3
  · refine ⟨by simpa using h1, ?_, ?_, ?_⟩
    · simp only [(by decide : (IPStatus.ACTIVE = IPStatus.RESERVED) = False), false_iff]
      rintro ⟨-, hc⟩
      linarith
    · simp only [(by decide : (IPStatus.ACTIVE = IPStatus.DHCP) = False), false_iff]
      rintro ⟨-, hc⟩
      linarith
    · simp only [(by decide : (IPStatus.ACTIVE = IPStatus.AVAILABLE) = False), false_iff]
      intro hc
      linarith
  · refine ⟨?_, ?_, ?_, ?_⟩
    · simp only [(by decide : (IPStatus.RESERVED = IPStatus.ACTIVE) = False), false_iff]
      exact h1
    · simpa using ⟨h2, by linarith [not_lt.mp h1]⟩
    · simp only [(by decide : (IPStatus.RESERVED = IPStatus.DHCP) = False), false_iff]
      rintro ⟨-, hc⟩
      linarith
    · simp only [(by decide : (IPStatus.RESERVED = IPStatus.AVAILABLE) = False), false_iff]
      intro hc
      linarith
  · refine ⟨?_, ?_, ?_, ?_⟩
    · simp only [(by decide : (IPStatus.DHCP = IPStatus.ACTIVE) = False), false_iff]
      exact h1
    · simp only [(by decide : (IPStatus.DHCP = IPStatus.RESERVED) = False), false_iff]
      rintro ⟨hc, -⟩
      exact h2 hc
    · simpa using ⟨h3, by linarith [not_lt.mp h2]⟩
    · simp only [(by decide : (IPStatus.DHCP = IPStatus.AVAILABLE) = False), false_iff]
      intro hc
      linarith
  · refine ⟨?_, ?_, ?_, ?_⟩
    · simp only [(by decide : (IPStatus.AVAILABLE = IPStatus.ACTIVE) = False), false_iff]
      exact h1
    · simp only [(by decide : (IPStatus.AVAILABLE = IPStatus.RESERVED) = False), false_iff]
      rintro ⟨hc, -⟩
      exact h2 hc
    · simp only [(by decide : (IPStatus.AVAILABLE = IPStatus.DHCP) = False), false_iff]
      rintro ⟨hc, -⟩
      exact h3 hc
    · simpa using not_lt.mp h3

/-! ### Claim theorems -/

theorem ipVal_lt (a b c d : Nat) (ha : a < 256) (hb : b < 256) (hc : c < 256) (hd2 : d < 256) :
    ipVal a b c d < 4294967296 := by
  simp only [ipVal]
  omega

theorem toUint32_uint32ToInt32 (u : Nat) (h : u < 4294967296) :
    toUint32 (uint32ToInt32 u) = u := by
  simp only [uint32ToInt32, toUint32]
  split <;> omega

/-- C4: round-trip — for every integer v in [0, 2^32-1],
`addressToInteger (integerToAddress v) = v`, i.e. `ipToLong (longToIp v) = v`,
and `longToIp v` always consists of four decimal octets (each below 256)
joined by dots. -/
theorem roundTrip_integerToAddress (v : Nat) (hv : v < 4294967296) :
    ipToLong (longToIp ((v : Nat) : Int)) = v ∧
      ∃ o1 o2 o3 o4 : Nat, o1 < 256 ∧ o2 < 256 ∧ o3 < 256 ∧ o4 < 256 ∧
        longToIp ((v : Nat) : Int) = addrStr o1 o2 o3 o4 := by
  constructor
  · rw [ipToLong_longToIp, toUint32_natCast v hv]
  · exact ⟨_, _, _, _, by omega, by omega, by omega, by omega,
      longToIp_eq_addrStr ((v : Nat) : Int)⟩

/-- Witness for C4 at v = 3232235777 (192.168.1.1). -/
theorem roundTrip_integerToAddress_witness :
    ipToLong (longToIp ((3232235777 : Nat) : Int)) = 3232235777 ∧
      longToIp ((3232235777 : Nat) : Int) = "192.168.1.1" :=
  ⟨(roundTrip_integerToAddress 3232235777 (by norm_num)).1, by decide⟩

/-- C2: for every prefix length n with 24 ≤ n ≤ 30 and every base address,
`expandHostRange` (getIPRange) on the CIDR string returns a sequence of
length exactly 2^(32-n) - 2. -/
theorem expandHostRange_length (a b c d n : Nat) (ha : a < 256) (hb : b < 256)
    (hc : c < 256) (hd2 : d < 256) (h24 : 24 ≤ n) (h30 : n ≤ 30) :
    (getIPRange (cidrStr a b c d n)).length = 2 ^ (32 - n) - 2 :=
  getIPRange_length _ n (cidr_parse a b c d n) h24 (by omega)

/-- Witness for C2 at 192.168.1.0/30: the length is 2^2 - 2 = 2. -/
theorem expandHostRange_length_witness :
    (getIPRange (cidrStr 192 168 1 0 30)).length = 2 ^ (32 - 30) - 2 ∧
      (getIPRange (cidrStr 192 168 1 0 30)).length = 2 :=
  ⟨expandHostRange_length 192 168 1 0 30 (by norm_num) (by norm_num) (by norm_num)
    (by norm_num) (by norm_num) (by norm_num), by decide⟩

/-- C9: role gating of status edits — a user with role admin can edit any
record and the record is stored exactly as submitted (any status); a non-admin
can edit a record only while its status is Available, and saving then stores
the record with status Reserved (all other fields unchanged), so the only
status transition a non-admin can effect through the editor is Available to
Reserved; records whose status is not Available are read-only to non-admins. -/
theorem role_gating_status_edits (r : IPRecord) :
    canEditIP true r = true ∧
      (canEditIP false r = true ↔ r.status = .AVAILABLE) ∧
      handleUpdateIP true r = r ∧
      (r.status = .AVAILABLE → handleUpdateIP false r = { r with status := .RESERVED }) ∧
      (r.status ≠ .AVAILABLE → handleUpdateIP false r = r) ∧
      (canEditIP false r = true → (handleUpdateIP false r).status = .RESERVED) := by
  by_cases hs : r.status = .AVAILABLE <;>
    simp [canEditIP, handleUpdateIP, hs]

/-- Witness for C9: a non-admin saving an Available record stores it as
Reserved. -/
theorem role_gating_status_edits_witness :
    handleUpdateIP false
        { ip := "10.0.0.1", status := .AVAILABLE, lastUpdated := 0 } =
      { ip := "10.0.0.1", status := .RESERVED, lastUpdated := 0 } :=
  (role_gating_status_edits
    { ip := "10.0.0.1", status := .AVAILABLE, lastUpdated := 0 }).2.2.2.1 rfl

/-- C10: authLogin never reports failure — for every email and every outcome
of the external auth backend it returns a user together with a null error; on
the failure paths (missing configuration, thrown exception, or sign-in and
auto-sign-up both failing) it returns the local mock user, whose role is
admin exactly when the email contains the substring "admin". -/
theorem authLogin_never_fails (env : AuthEnv) (email : String) :
    (∃ u : User, authLogin env email = (some u, none)) ∧
      (env.configured = false ∨ env.throws = true ∨
          (env.signInError = true ∧ env.signUpError = true) →
        authLogin env email = (some (mockUserFor email), none)) ∧
      ((mockUserFor email).role = .admin ↔ containsSub "admin".data email.data = true) ∧
      (mockUserFor email).username = email := by
  refine ⟨?_, ?_, ?_, rfl⟩
  · unfold authLogin
    split_ifs <;> exact ⟨_, rfl⟩
  · intro hfail
    unfold authLogin
    rcases hfail with h | h | ⟨h1, h2⟩ <;> simp [*]
  · unfold mockUserFor
    split_ifs with h <;> simp [h]

/-- Witness for C10: with no backend configured and email "admin@nexus.com",
authLogin returns the local admin user and no error. -/
theorem authLogin_never_fails_witness :
    authLogin ⟨false, false, false, false, false, false, none⟩ "admin@nexus.com" =
      (some (mockUserFor "admin@nexus.com"), none) ∧
      mockUserFor "admin@nexus.com" = ⟨"admin@nexus.com", .admin⟩ :=
  ⟨(authLogin_never_fails ⟨false, false, false, false, false, false, none⟩
      "admin@nexus.com").2.1 (Or.inl rfl), by decide⟩

/-- C1 counterexample: the display comparator omits the `>>> 0` normalisation,
so "200.0.0.1" is reduced to a negative signed 32-bit value; the comparator
returns the positive value 1107296264 on ("10.0.0.9", "200.0.0.1") although
the 32-bit unsigned value of "10.0.0.9" is smaller — the result is not
negative exactly when the unsigned value of the first address is smaller. -/
theorem gridCompare_not_unsigned_counterexample :
    gridCompare "10.0.0.9" "200.0.0.1" = some 1107296264 ∧
      ipToLong "10.0.0.9" < ipToLong "200.0.0.1" := by
  constructor <;> decide

/-- C1 amended: the display comparator implements signed 32-bit ordering, so
its sign matches numeric (unsigned) IPv4 ordering exactly on pairs of
canonical dotted quads whose first octets lie on the same side of 128 (both
below or both at least 128) — in particular on every pair within one subnet,
and compare("10.0.0.9", "10.0.0.100") is negative. -/
theorem gridCompare_matches_numeric_same_sign (a b c d e f g h : Nat)
    (ha : a < 256) (hb : b < 256) (hc : c < 256) (hd2 : d < 256)
    (he : e < 256) (hf : f < 256) (hg : g < 256) (hh : h < 256)
    (hside : a < 128 ↔ e < 128) :
    ∃ r : Int, gridCompare (addrStr a b c d) (addrStr e f g h) = some r ∧
      (r < 0 ↔ ipToLong (addrStr a b c d) < ipToLong (addrStr e f g h)) ∧
      (r = 0 ↔ ipToLong (addrStr a b c d) = ipToLong (addrStr e f g h)) ∧
      (0 < r ↔ ipToLong (addrStr e f g h) < ipToLong (addrStr a b c d)) := by
  simp only [gridCompare, ipNumRaw_addrStr a b c d ha hb hc hd2,
    ipNumRaw_addrStr e f g h he hf hg hh, ipToLong_addrStr a b c d ha hb hc hd2,
    ipToLong_addrStr e f g h he hf hg hh]
  refine ⟨_, rfl, ?_, ?_, ?_⟩ <;>
    · simp only [ipVal]
      split_ifs <;> push_cast <;> omega

/-- Witness for the amended C1 at ("10.0.0.9", "10.0.0.100"): the comparator
result is negative and the unsigned values are in the same order. -/
theorem gridCompare_matches_numeric_witness :
    gridCompare (addrStr 10 0 0 9) (addrStr 10 0 0 100) = some (-91) ∧
      ((-91 : Int) < 0 ↔ ipToLong (addrStr 10 0 0 9) < ipToLong (addrStr 10 0 0 100)) := by
  obtain ⟨r, hr, hlt, -, -⟩ := gridCompare_matches_numeric_same_sign 10 0 0 9 10 0 0 100
    (by norm_num) (by norm_num) (by norm_num) (by norm_num) (by norm_num) (by norm_num)
    (by norm_num) (by norm_num) (by norm_num)
  have hr91 : r = -91 := by
    have := hr.symm.trans (by decide : gridCompare (addrStr 10 0 0 9) (addrStr 10 0 0 100) =
      some (-91))
    exact Option.some.inj this
  exact ⟨hr91 ▸ hr, hr91 ▸ hlt⟩

/-- C5: for every CIDR string whose prefix length is absent or non-numeric
(the mask part parses to NaN), or parses to n with n < 24 or n > 32, and also
for n = 31 and n = 32, getIPRange returns the empty sequence rather than
failing, and generateMockSubnet consequently returns an empty address map. -/
theorem expandHostRange_empty (cidr name : String) (rand : Nat → ℚ) (now : Nat → Nat)
    (hbad : ((splitChar '/' cidr.data)[1]?).bind parseIntM = none ∨
      ∃ n : Nat, ((splitChar '/' cidr.data)[1]?).bind parseIntM = some n ∧
        (n < 24 ∨ n = 31 ∨ n = 32 ∨ 32 < n)) :
    getIPRange cidr = [] ∧ generateMockSubnet cidr name rand now = [] := by
  have hempty : getIPRange cidr = [] := by
    rcases hbad with hnone | ⟨n, hn, hcase⟩
    · simp only [getIPRange, hnone]
    · rcases hcase with h | h | h | h
      · simp only [getIPRange, hn]
        rw [if_pos (by omega : n < 24 ∨ 32 < n)]
      · subst h
        rw [getIPRange_eq cidr 31 hn (by norm_num) (by norm_num)]
        simp
      · subst h
        rw [getIPRange_eq cidr 32 hn (by norm_num) (by norm_num)]
        simp
      · simp only [getIPRange, hn]
        rw [if_pos (by omega : n < 24 ∨ 32 < n)]
  exact ⟨hempty, by simp [generateMockSubnet, hempty]⟩

/-- Witness for C5 at "10.0.0.0/16" (prefix below the 24 floor). -/
theorem expandHostRange_empty_witness :
    getIPRange "10.0.0.0/16" = [] ∧
      generateMockSubnet "10.0.0.0/16" "Lab" (fun _ => 0) (fun _ => 0) = [] :=
  expandHostRange_empty "10.0.0.0/16" "Lab" (fun _ => 0) (fun _ => 0)
    (Or.inr ⟨16, by decide, Or.inl (by norm_num)⟩)

/-- C8 counterexample: "192.168.1.5/24" passes isValidCIDR, yet the stored
gateway is the raw base string "192.168.1.5", while the CIDR network address
`integerToAddress (addressToInteger base & mask 24)` is "192.168.1.0" — the
gateway is not the network address. -/
theorem subnetGateway_counterexample :
    isValidCIDR "192.168.1.5/24" = true ∧
      subnetGatewayOf "192.168.1.5/24" = "192.168.1.5" ∧
      longToIp (networkLongOf "192.168.1.5" 24) = "192.168.1.0" ∧
      subnetGatewayOf "192.168.1.5/24" ≠ longToIp (networkLongOf "192.168.1.5" 24) := by
  refine ⟨by decide, by decide, by decide, by decide⟩

/-- C8 amended: the stored gateway is the base-address substring before the
slash, and it equals the CIDR network address exactly in the case the claim
assumed implicitly — when the base address has zero host bits. -/
theorem subnetGateway_is_base (a b c d n : Nat) (ha : a < 256) (hb : b < 256)
    (hc : c < 256) (hd2 : d < 256) (h24 : 24 ≤ n) (h32 : n ≤ 32) :
    subnetGatewayOf (cidrStr a b c d n) = addrStr a b c d ∧
      (ipVal a b c d % 2 ^ (32 - n) = 0 →
        longToIp (networkLongOf (addrStr a b c d) n) = addrStr a b c d) := by
  constructor
  · rw [subnetGatewayOf, splitChar_cidrStr]
    rfl
  · intro hhost
    rw [networkLongOf_eq _ n h24 h32, ipToLong_addrStr a b c d ha hb hc hd2,
      land_eq_self_of_mod _ _ (ipVal_lt a b c d ha hb hc hd2) (by omega) hhost,
      longToIp_eq_addrStr,
      toUint32_uint32ToInt32 _ (ipVal_lt a b c d ha hb hc hd2)]
    have e1 : ipVal a b c d / 16777216 % 256 = a := by
      simp only [ipVal]
      omega
    have e2 : ipVal a b c d / 65536 % 256 = b := by
      simp only [ipVal]
      omega
    have e3 : ipVal a b c d / 256 % 256 = c := by
      simp only [ipVal]
      omega
    have e4 : ipVal a b c d % 256 = d := by
      simp only [ipVal]
      omega
    rw [e1, e2, e3, e4]

/-- Witness for the amended C8 at 192.168.1.0/24: the gateway is the base
"192.168.1.0", which here is also the network address. -/
theorem subnetGateway_is_base_witness :
    subnetGatewayOf (cidrStr 192 168 1 0 24) = addrStr 192 168 1 0 ∧
      longToIp (networkLongOf (addrStr 192 168 1 0) 24) = addrStr 192 168 1 0 := by
  obtain ⟨h1, h2⟩ := subnetGateway_is_base 192 168 1 0 24 (by norm_num) (by norm_num)
    (by norm_num) (by norm_num) (by norm_num) (by norm_num)
  exact ⟨h1, h2 (by decide)⟩

set_option maxRecDepth 10000

theorem octetTok_natDigits : ∀ x : Nat, x < 1000 → octetTok (natDigits x) = true := by decide

theorem maskTok_natDigits_le32 : ∀ n : Nat, n < 33 → maskTok (natDigits n) = true := by decide

theorem maskTok_natDigits_gt32 : ∀ m : Nat, m < 1000 → 33 ≤ m →
    maskTok (natDigits m) = false := by decide

theorem splitChar_dot_cidrStr (a b c d n : Nat) :
    splitChar '.' (cidrStr a b c d n).data =
      [natDigits a, natDigits b, natDigits c, natDigits d ++ '/' :: natDigits n] := by
  have e : (cidrStr a b c d n).data = natDigits a ++ '.' :: (natDigits b ++ '.' ::
      (natDigits c ++ '.' :: (natDigits d ++ '/' :: natDigits n))) := by
    show (addrStr a b c d).data ++ '/' :: natDigits n = _
    simp only [addrStr, List.append_assoc, List.cons_append]
  have hlast : '.' ∉ natDigits d ++ '/' :: natDigits n := by
    simp [List.mem_append, List.mem_cons, dot_not_mem_natDigits d, dot_not_mem_natDigits n]
  rw [e, splitChar_append _ (dot_not_mem_natDigits a),
    splitChar_append _ (dot_not_mem_natDigits b), splitChar_append _ (dot_not_mem_natDigits c),
    splitChar_of_not_mem hlast]

/-- C6 counterexample: isValidCIDR accepts "999.0.0.0" although 999 is not a
valid octet value — the regular expression checks one to three digits per
octet, not the 0–255 range the claim states (specValidCidr is the claim's
predicate, modelled from the spec). -/
theorem isValidCIDR_counterexample :
    isValidCIDR "999.0.0.0" = true ∧ specValidCidr "999.0.0.0" = false := by
  constructor <;> decide

/-- C6 amended: isValidCIDR accepts exactly the strings of four dot-separated
octet tokens of one to three decimal digits — any numeric value up to 999,
with the 0–255 range not enforced — optionally followed by a slash and a mask
numeral whose value is 0–32; canonical mask numerals from 33 to 999 are
rejected. -/
theorem isValidCIDR_amended (a b c d : Nat) (ha : a < 1000) (hb : b < 1000)
    (hc : c < 1000) (hd2 : d < 1000) :
    isValidCIDR (addrStr a b c d) = true ∧
      (∀ n : Nat, n ≤ 32 → isValidCIDR (cidrStr a b c d n) = true) ∧
      (∀ m : Nat, 33 ≤ m → m < 1000 → isValidCIDR (cidrStr a b c d m) = false) := by
  refine ⟨?_, ?_, ?_⟩
  · simp only [isValidCIDR, splitChar_addrStr,
      splitChar_of_not_mem (slash_not_mem_natDigits d)]
    simp [octetTok_natDigits a ha, octetTok_natDigits b hb, octetTok_natDigits c hc,
      octetTok_natDigits d hd2]
  · intro n hn
    simp only [isValidCIDR, splitChar_dot_cidrStr,
      splitChar_append _ (slash_not_mem_natDigits d),
      splitChar_of_not_mem (slash_not_mem_natDigits n)]
    simp [octetTok_natDigits a ha, octetTok_natDigits b hb, octetTok_natDigits c hc,
      octetTok_natDigits d hd2, maskTok_natDigits_le32 n (by omega)]
  · intro m hm hm2
    simp only [isValidCIDR, splitChar_dot_cidrStr,
      splitChar_append _ (slash_not_mem_natDigits d),
      splitChar_of_not_mem (slash_not_mem_natDigits m)]
    simp [maskTok_natDigits_gt32 m hm2 hm]

/-- Witness for the amended C6 at 999.0.0.0: accepted bare and with /24,
rejected with /33. -/
theorem isValidCIDR_amended_witness :
    isValidCIDR (addrStr 999 0 0 0) = true ∧
      isValidCIDR (cidrStr 999 0 0 0 24) = true ∧
      isValidCIDR (cidrStr 999 0 0 0 33) = false := by
  obtain ⟨h1, h2, h3⟩ := isValidCIDR_amended 999 0 0 0 (by norm_num) (by norm_num)
    (by norm_num) (by norm_num)
  exact ⟨h1, h2 24 (by norm_num), h3 33 (by norm_num) (by norm_num)⟩

/-- C7: in the map built by the seeded factory generateMockSubnet, with the
per-address random draw modelled as a rational input, the record at position
i (positions follow the ascending numeric order of getIPRange, which is
strictly ascending) has status Active iff its draw exceeds 0.8, Reserved iff
it lies in (0.7, 0.8], DHCP iff it lies in (0.65, 0.7], Available otherwise;
and it carries a hostname iff its status is Active, in which case the
hostname is exactly "host-i.local". -/
theorem generateMockSubnet_spec (cidr name : String) (rand : Nat → ℚ) (now : Nat → Nat) :
    List.Pairwise (fun s t => ipToLong s < ipToLong t) (getIPRange cidr) ∧
      ∀ (i : Nat) (p : String × IPRecord),
        (generateMockSubnet cidr name rand now)[i]? = some p →
          (getIPRange cidr)[i]? = some p.1 ∧ p.2.ip = p.1 ∧
          (p.2.status = .ACTIVE ↔ 4 / 5 < rand i) ∧
          (p.2.status = .RESERVED ↔ 7 / 10 < rand i ∧ rand i ≤ 4 / 5) ∧
          (p.2.status = .DHCP ↔ 13 / 20 < rand i ∧ rand i ≤ 7 / 10) ∧
          (p.2.status = .AVAILABLE ↔ rand i ≤ 13 / 20) ∧
          ((p.2.hostname).isSome ↔ p.2.status = .ACTIVE) ∧
          (p.2.status = .ACTIVE → p.2.hostname = some ("host-" ++ natStr i ++ ".local")) := by
  refine ⟨getIPRange_pairwise cidr, ?_⟩
  intro i p hp
  simp only [generateMockSubnet, List.getElem?_map, List.getElem?_enum] at hp
  cases hip : (getIPRange cidr)[i]? with
  | none =>
    rw [hip] at hp
    simp at hp
  | some ip =>
    rw [hip] at hp
    rw [Option.map_some'] at hp
    obtain rfl := Option.some.inj hp
    obtain ⟨hA, hR, hD, hAv⟩ := statusOfRand_spec (rand i)
    refine ⟨rfl, rfl, hA, hR, hD, hAv, ?_, ?_⟩
    · by_cases hact : statusOfRand (rand i) = .ACTIVE <;> simp [hact]
    · intro hact
      show (if statusOfRand (rand i) = .ACTIVE then some ("host-" ++ natStr i ++ ".local")
        else none) = some ("host-" ++ natStr i ++ ".local")
      rw [if_pos hact]

/-- Witness for C7 on 192.168.10.0/30 with every draw equal to 0.9: the first
record is Active with hostname "host-0.local". -/
theorem generateMockSubnet_spec_witness :
    ((generateMockSubnet "192.168.10.0/30" "Lab" (fun _ => (9 : ℚ) / 10) (fun _ => 0))[0]? =
      some ("192.168.10.1",
        { ip := "192.168.10.1", status := .ACTIVE, hostname := some "host-0.local",
          lastUpdated := 0 })) ∧
      (getIPRange "192.168.10.0/30")[0]? = some "192.168.10.1" := by
  have h1 : (generateMockSubnet "192.168.10.0/30" "Lab" (fun _ => (9 : ℚ) / 10)
      (fun _ => 0))[0]? =
      some ("192.168.10.1",
        { ip := "192.168.10.1", status := .ACTIVE, hostname := some "host-0.local",
          lastUpdated := 0 }) := by
    have hst : statusOfRand ((9 : ℚ) / 10) = .ACTIVE := by
      unfold statusOfRand
      rw [if_pos (by norm_num : (4 : ℚ) / 5 < 9 / 10)]
    simp only [generateMockSubnet, List.getElem?_map, List.getElem?_enum,
      (by decide : (getIPRange "192.168.10.0/30")[0]? = some "192.168.10.1"),
      Option.map_some']
    simp [hst, (by decide : ("host-" ++ natStr 0 ++ ".local" : String) = "host-0.local")]
  exact ⟨h1, ((generateMockSubnet_spec "192.168.10.0/30" "Lab" (fun _ => (9 : ℚ) / 10)
    (fun _ => 0)).2 0 _ h1).1⟩

/-- C3: for every canonical CIDR with prefix length n in [24, 30], getIPRange
emits exactly the addresses whose integer value v satisfies
networkInt < v < broadcastInt (the i-th element has value networkInt + 1 + i),
in strictly ascending numeric order, excluding the network and broadcast
addresses; concretely, getIPRange "192.168.10.0/30" is exactly
["192.168.10.1", "192.168.10.2"], and getIPRange "192.168.1.0/24" starts at
"192.168.1.1", ends at "192.168.1.254", and contains neither "192.168.1.0"
nor "192.168.1.255". -/
theorem expandHostRange_bounds (a b c d n : Nat) (ha : a < 256) (hb : b < 256)
    (hc : c < 256) (hd2 : d < 256) (h24 : 24 ≤ n) (h30 : n ≤ 30) :
    (∀ (i : Nat) (hi : i < (getIPRange (cidrStr a b c d n)).length),
        ipToLong ((getIPRange (cidrStr a b c d n)).get ⟨i, hi⟩) =
          Nat.land (ipVal a b c d) (4294967296 - 2 ^ (32 - n)) + 1 + i) ∧
      List.Pairwise (fun s t => ipToLong s < ipToLong t) (getIPRange (cidrStr a b c d n)) ∧
      (∀ s ∈ getIPRange (cidrStr a b c d n),
        Nat.land (ipVal a b c d) (4294967296 - 2 ^ (32 - n)) < ipToLong s ∧
          ipToLong s <
            Nat.land (ipVal a b c d) (4294967296 - 2 ^ (32 - n)) + 2 ^ (32 - n) - 1) ∧
      longToIp ((Nat.land (ipVal a b c d) (4294967296 - 2 ^ (32 - n)) : Nat) : Int) ∉
        getIPRange (cidrStr a b c d n) ∧
      longToIp ((Nat.land (ipVal a b c d) (4294967296 - 2 ^ (32 - n)) + 2 ^ (32 - n) - 1 :
          Nat) : Int) ∉ getIPRange (cidrStr a b c d n) ∧
      getIPRange "192.168.10.0/30" = ["192.168.10.1", "192.168.10.2"] ∧
      (getIPRange "192.168.1.0/24").head? = some "192.168.1.1" ∧
      (getIPRange "192.168.1.0/24").getLast? = some "192.168.1.254" ∧
      "192.168.1.0" ∉ getIPRange "192.168.1.0/24" ∧
      "192.168.1.255" ∉ getIPRange "192.168.1.0/24" := by
  have hp := cidr_parse a b c d n
  have h32 : n ≤ 32 := by omega
  have hip : ipToLong (ipPartOf (cidrStr a b c d n)) = ipVal a b c d := by
    rw [ipPartOf_cidrStr]
    exact ipToLong_addrStr a b c d ha hb hc hd2
  have hnetle : Nat.land (ipVal a b c d) (4294967296 - 2 ^ (32 - n)) ≤
      4294967296 - 2 ^ (32 - n) := Nat.and_le_right
  have hpow := Nat.two_pow_pos (32 - n)
  have hple := two_pow_sub_le n h24
  refine ⟨?_, getIPRange_pairwise _, ?_, ?_, ?_, by decide, by decide, by decide,
    by decide, by decide⟩
  · intro i hi
    have h := getIPRange_elem (cidrStr a b c d n) n hp h24 h32 i hi
    rwa [hip] at h
  · intro s hs
    have h := getIPRange_mem (cidrStr a b c d n) n hp h24 h32 s hs
    rwa [hip] at h
  · intro hmem
    have h := getIPRange_mem (cidrStr a b c d n) n hp h24 h32 _ hmem
    rw [hip] at h
    have hrt : ipToLong (longToIp ((Nat.land (ipVal a b c d)
        (4294967296 - 2 ^ (32 - n)) : Nat) : Int)) =
        Nat.land (ipVal a b c d) (4294967296 - 2 ^ (32 - n)) := by
      rw [ipToLong_longToIp]
      refine toUint32_natCast _ ?_
      generalize Nat.land (ipVal a b c d) (4294967296 - 2 ^ (32 - n)) = net at hnetle ⊢
      omega
    rw [hrt] at h
    exact lt_irrefl _ h.1
  · intro hmem
    have h := getIPRange_mem (cidrStr a b c d n) n hp h24 h32 _ hmem
    rw [hip] at h
    have hrt : ipToLong (longToIp ((Nat.land (ipVal a b c d)
        (4294967296 - 2 ^ (32 - n)) + 2 ^ (32 - n) - 1 : Nat) : Int)) =
        Nat.land (ipVal a b c d) (4294967296 - 2 ^ (32 - n)) + 2 ^ (32 - n) - 1 := by
      rw [ipToLong_longToIp]
      refine toUint32_natCast _ ?_
      generalize Nat.land (ipVal a b c d) (4294967296 - 2 ^ (32 - n)) = net at hnetle ⊢
      omega
    rw [hrt] at h
    exact lt_irrefl _ h.2

/-- Witness for C3: the concrete /30 expansion, obtained from the theorem at
192.168.10.0/30. -/
theorem expandHostRange_bounds_witness :
    getIPRange "192.168.10.0/30" = ["192.168.10.1", "192.168.10.2"] :=
  (expandHostRange_bounds 192 168 10 0 30 (by norm_num) (by norm_num) (by norm_num)
    (by norm_num) (by norm_num) (by norm_num)).2.2.2.2.2.1

end NexusIPAM
